import Mathlib

/-!
Verification development for the tmx package (Tiled tile-map XML reader).

The Go package decodes a per-layer tile payload — one of three encodings
("base64" binary, "csv" delimited text, "" pre-parsed XML tile list), the
binary one optionally compressed with gzip or zlib — into a column-major
grid of 32-bit global tile identifiers (GIDs), whose top three bits carry
flip flags.

We give a shallow embedding of the data model and the decode pipeline of
src/tmx.go (the `Data.decode` revision) and src/spec.go, and prove the
spec-level properties about it.  Machine integers are modelled as `Nat`
with explicit `% 2^32` truncation where the Go code converts to `uint32`.
The external codecs (Go's `compress/gzip`, `compress/zlib`, and the
streaming `encoding/base64` reader) are out-of-scope collaborators: they
are modelled as parameters producing a `ReadResult` — the bytes a Go
`ioutil.ReadAll` on that reader would deliver, together with the terminal
read error, if any (`none` = clean EOF).
-/

namespace Tmx

/-- Errors produced by the decode pipeline.  Each constructor stands for
one `fmt.Errorf` site (or an error propagated from a collaborator) in
src/tmx.go:
* `unsupportedEncoding tag` — "decodeData: encoding '%s' not yet implemented."
* `unsupportedCompression tag` — "decodeBase64: compression '%s' not yet implemented."
* `lengthMismatch fn got want` — "%s: wrong number of GIDs. Got %d, wanted %d."
* `numErrorSyntax s` / `numErrorRange s` — the `strconv.Atoi` failures.
* `codecError msg` — an error value returned by `gzip.NewReader`/`zlib.NewReader`
  and propagated unchanged by the Go code. -/
inductive GoError : Type where
  | unsupportedEncoding (tag : String)
  | unsupportedCompression (tag : String)
  | lengthMismatch (fn : String) (got want : Nat)
  | numErrorSyntax (s : String)
  | numErrorRange (s : String)
  | codecError (msg : String)
  deriving DecidableEq, Repr

/-- The observable behaviour of reading a Go `io.Reader` to exhaustion with
`ioutil.ReadAll`: the bytes delivered before EOF or failure, and the
terminal error (`none` means a clean EOF). -/
def ReadResult : Type := List Nat × Option GoError

/-- The decoded gid table, Go's `[][]GID` indexed `[col][row]`: a `cols × rows`
table of 32-bit values.  Cells are a total function; only indices with
`col < cols` and `row < rows` are observable through the accessors. -/
structure Grid : Type where
  cols : Nat
  rows : Nat
  cells : Nat → Nat → Nat

/-- `make([][]GID, cols)` with each column `make([]GID, rows)`: a zero grid. -/
def allocGrid (cols rows : Nat) : Grid :=
  { cols := cols, rows := rows, cells := fun _ _ => 0 }

/-- In-place update `gids[col][row] = v` of the Go code. -/
def updateCell (g : Grid) (col row v : Nat) : Grid :=
  { g with cells := fun c r => if c = col ∧ r = row then v else g.cells c r }

/-! ### GID flip flags (src/spec.go and the GID methods of src/tmx.go) -/

/-- `FlagDiagonalFlip = 0x20000000` (bit 29). -/
def FlagDiagonalFlip : Nat := 0x20000000

/-- `FlagVerticalFlip = 0x40000000` (bit 30). -/
def FlagVerticalFlip : Nat := 0x40000000

/-- `FlagHorizontalFlip = 0x80000000` (bit 31). -/
def FlagHorizontalFlip : Nat := 0x80000000

/-- `FlagFlip = FlagDiagonalFlip | FlagVerticalFlip | FlagHorizontalFlip`. -/
def FlagFlip : Nat := FlagDiagonalFlip ||| FlagVerticalFlip ||| FlagHorizontalFlip

/-- `func (gid GID) GlobalTileID() int { return int(gid &^ FlagFlip) }`.
Go's `&^` on `uint32` is AND with the 32-bit complement of the mask,
i.e. AND with `0xFFFFFFFF XOR FlagFlip`. -/
def GlobalTileID (gid : Nat) : Nat := gid &&& (0xFFFFFFFF ^^^ FlagFlip)

/-- `func (gid GID) IsDiagonalFlip() bool { return gid&FlagDiagonalFlip != 0 }`. -/
def IsDiagonalFlip (gid : Nat) : Bool := gid &&& FlagDiagonalFlip ≠ 0

/-- `func (gid GID) IsVerticalFlip() bool { return gid&FlagVerticalFlip != 0 }`. -/
def IsVerticalFlip (gid : Nat) : Bool := gid &&& FlagVerticalFlip ≠ 0

/-- `func (gid GID) IsHorizontalFlip() bool { return gid&FlagHorizontalFlip != 0 }`. -/
def IsHorizontalFlip (gid : Nat) : Bool := gid &&& FlagHorizontalFlip ≠ 0

/-- `func (gid GID) IsFlip() bool { return gid&FlagFlip != 0 }`. -/
def IsFlip (gid : Nat) : Bool := gid &&& FlagFlip ≠ 0

/-! ### String helpers (Go standard library functions used by the decoders) -/

/-- The runes Go's `strings.TrimSpace` strips (ASCII whitespace). -/
def isSpaceRune (c : Char) : Bool :=
  c = ' ' ∨ c = '\t' ∨ c = '\n' ∨ c = '\r' ∨ c = '\x0b' ∨ c = '\x0c'

/-- `strings.TrimSpace`. -/
def trimSpace (s : String) : String :=
  ⟨((s.data.dropWhile isSpaceRune).reverse.dropWhile isSpaceRune).reverse⟩

/-- `func clean(r rune) rune`: keep ASCII digits and commas, skip (-1)
everything else.  `none` models the skip. -/
def clean (r : Char) : Option Char :=
  if ('0' ≤ r ∧ r ≤ '9') ∨ r = ',' then some r else none

/-- `strings.Map(clean, s)`: the skipped runes are dropped. -/
def cleanData (s : List Char) : List Char := s.filterMap clean

/-- `strings.Split(s, ",")`: split on every comma, keeping empty tokens;
the empty string yields one empty token. -/
def splitComma : List Char → List (List Char)
  | [] => [[]]
  | c :: rest =>
    match splitComma rest with
    | [] => [[]]
    | t :: ts => if c = ',' then [] :: t :: ts else (c :: t) :: ts

/-- Decimal digit value of a rune, `none` for a non-digit. -/
def digitVal (c : Char) : Option Nat :=
  if '0' ≤ c ∧ c ≤ '9' then some (c.toNat - '0'.toNat) else none

/-- Accumulating decimal parse; fails on the first non-digit. -/
def parseDigitsAux : List Char → Nat → Option Nat
  | [], acc => some acc
  | c :: cs, acc =>
    match digitVal c with
    | some d => parseDigitsAux cs (acc * 10 + d)
    | none => none

/-- Parse a non-empty all-digit rune list as a natural number. -/
def parseDigits (l : List Char) : Option Nat :=
  if l.isEmpty then none else parseDigitsAux l 0

/-- `strconv.Atoi`: an empty string is a syntax error; a leading '+' or
'-' is consumed (only '-' negates); the remainder must be one or more
decimal digits; the value must fit a 64-bit `int`, else a range error —
the two `*strconv.NumError` shapes. -/
def Atoi (s : String) : Except GoError Int :=
  match s.data with
  | [] => .error (.numErrorSyntax s)
  | c :: rest =>
    let neg := c = '-'
    let digits := if c = '+' ∨ c = '-' then rest else c :: rest
    match parseDigits digits with
    | none => .error (.numErrorSyntax s)
    | some n =>
      let v : Int := if neg then -(n : Int) else (n : Int)
      if v < -(2 ^ 63) ∨ (2 ^ 63 : Int) ≤ v then .error (.numErrorRange s)
      else .ok v

/-- Go's `GID(gid)` conversion from `int` to `uint32`: two's-complement
truncation to the low 32 bits. -/
def intToUint32 (v : Int) : Nat := (v % (2 ^ 32 : Int)).toNat

/-- `buf[i]`, with 0 for an out-of-range index (the decode paths only read
in range after their length checks). -/
def byteAt (buf : List Nat) (i : Nat) : Nat := buf.getD i 0

/-- `binary.LittleEndian.Uint32(buf[off:])`. -/
def uint32LE (buf : List Nat) (off : Nat) : Nat :=
  byteAt buf off + 2 ^ 8 * byteAt buf (off + 1) +
    2 ^ 16 * byteAt buf (off + 2) + 2 ^ 24 * byteAt buf (off + 3)

/-! ### The row-major fill loops

Each decoder ends with the same double loop

```
i := 0
for row := 0; row < rows; row++ {
    for col := 0; col < cols; col++ {
        data.gids[col][row] = <entry i>   // may fail (csv: strconv.Atoi)
        i++
    }
}
```

We embed the loops literally: an inner loop over `col` and an outer loop
over `row`, threading the counter `i` and the partially mutated grid, with
the early `return err` of the csv loop modelled by short-circuiting. -/

/-- The inner `for col` loop at a fixed `row`, driven by the number
`remaining = cols - col` of iterations left: fills `gids[col][row]` for
`col, col+1, …`, threading the running index `i`.  Returns the mutated
grid, the final index, and the first entry error, if any (the grid
mutations before the failing entry are kept, as in Go). -/
def fillColsAux (entry : Nat → Except GoError Nat) (row : Nat) :
    Nat → Nat → Nat → Grid → (Grid × Nat) × Option GoError
  | 0, _, i, g => ((g, i), none)
  | remaining + 1, col, i, g =>
    match entry i with
    | .error e => ((g, i), some e)
    | .ok v => fillColsAux entry row remaining (col + 1) (i + 1) (updateCell g col row v)

/-- The inner `for col := col; col < cols; col++` loop: `cols - col`
iterations remain. -/
def fillColsLoop (entry : Nat → Except GoError Nat) (row cols col i : Nat)
    (g : Grid) : (Grid × Nat) × Option GoError :=
  fillColsAux entry row (cols - col) col i g

/-- The outer `for row` loop, driven by the number `remaining = rows - row`
of iterations left: runs the inner loop for `row, row+1, …`, threading `i`
and the grid, stopping at the first entry error. -/
def fillRowsAux (entry : Nat → Except GoError Nat) (cols : Nat) :
    Nat → Nat → Nat → Grid → Grid × Option GoError
  | 0, _, _, g => (g, none)
  | remaining + 1, row, i, g =>
    match fillColsLoop entry row cols 0 i g with
    | ((g', i'), none) => fillRowsAux entry cols remaining (row + 1) i' g'
    | ((g', _), some e) => (g', some e)

/-- The outer `for row := row; row < rows; row++` loop. -/
def fillRowsLoop (entry : Nat → Except GoError Nat) (cols rows row i : Nat)
    (g : Grid) : Grid × Option GoError :=
  fillRowsAux entry cols (rows - row) row i g

/-- The whole double loop, started at `row = 0`, `i = 0`. -/
def fillGrid (entry : Nat → Except GoError Nat) (cols rows : Nat) (g : Grid) :
    Grid × Option GoError :=
  fillRowsLoop entry cols rows 0 0 g

/-! ### The three decoders and the dispatcher (src/tmx.go) -/

/-- `func (data *Data) decodeCsv(cols, rows int) error`: strip non-digit,
non-comma runes, split on commas, check the token count, then fill the
grid row-major, parsing each token with `strconv.Atoi` (failing tokens
abort the fill).  Takes and returns the grid that `decode` allocated. -/
def decodeCsv (rawData : String) (cols rows : Nat) (g : Grid) :
    Grid × Option GoError :=
  let rawGIDs := splitComma (cleanData rawData.data)
  if rawGIDs.length ≠ cols * rows then
    (g, some (.lengthMismatch "decodeCsv" rawGIDs.length (cols * rows)))
  else
    fillGrid (fun i => (Atoi ⟨rawGIDs.getD i []⟩).map intToUint32) cols rows g

/-- `func (data *Data) decodeXml(cols, rows int) error`: the payload is the
pre-parsed list of per-tile GIDs (`data.Tiles[i].GID`); check the count,
then fill the grid row-major. -/
def decodeXml (tiles : List Nat) (cols rows : Nat) (g : Grid) :
    Grid × Option GoError :=
  if tiles.length ≠ cols * rows then
    (g, some (.lengthMismatch "decodeXml" tiles.length (cols * rows)))
  else
    fillGrid (fun i => .ok (tiles.getD i 0)) cols rows g

/-- The part of `func (data *Data) decodeBase64(cols, rows int) error`
after the compression switch: `buf, err := ioutil.ReadAll(r)` followed by
the length check and the fill loop.  Mirroring the source, the error
component of the `ReadAll` result (`r.2`) is read into `err` and then
never checked: only the bytes `r.1` flow on into the length check and the
fill loop. -/
def decodeBase64Tail (r : ReadResult) (cols rows : Nat) (g : Grid) :
    Grid × Option GoError :=
  let buf := r.1
  if buf.length / 4 ≠ cols * rows then
    (g, some (.lengthMismatch "decodeBase64" (buf.length / 4) (cols * rows)))
  else
    fillGrid (fun i => .ok (uint32LE buf (i * 4))) cols rows g

/-- `func (data *Data) decodeBase64(cols, rows int) error`.
`gzipNewReader` / `zlibNewReader` model `gzip.NewReader` / `zlib.NewReader`
applied to the base64-decoding reader: `.error` is the header-stage failure
the Go code returns immediately; `.ok r` is the resulting stream, described
by what `ioutil.ReadAll` on it yields.  `b64Read` models the base64
decoding reader over the trimmed raw data the same way. -/
def decodeBase64 (gzipNewReader zlibNewReader : ReadResult → Except GoError ReadResult)
    (b64Read : String → ReadResult) (rawData compression : String)
    (cols rows : Nat) (g : Grid) : Grid × Option GoError :=
  let s := trimSpace rawData
  let r0 : ReadResult := b64Read s
  match (match compression with
         | "gzip" => gzipNewReader r0
         | "zlib" => zlibNewReader r0
         | "" => .ok r0
         | c => .error (.unsupportedCompression c)) with
  | .error e => (g, some e)
  | .ok r => decodeBase64Tail r cols rows g

/-- The `Data` struct of src/spec.go, restricted to the fields the decode
pipeline reads: the encoding and compression tags, the raw payload text,
the pre-parsed `<tile>` GID list, and the private decoded-grid field
(`nil`/`none` until `decode` runs). -/
structure Data : Type where
  Encoding : String
  Compression : String
  RawData : String
  Tiles : List Nat
  gids : Option Grid

/-- `func (data *Data) decode(cols, rows int) error`: return at once if the
grid is already decoded; otherwise allocate the `cols × rows` grid, attach
it, and dispatch on the encoding tag ("base64", "csv", "" = XML, anything
else fails).  The mutation of `data.gids` persists on every path, error
paths included, exactly as in the Go code.  The codec parameters are
passed through to `decodeBase64`. -/
def Data.decode (gzipNewReader zlibNewReader : ReadResult → Except GoError ReadResult)
    (b64Read : String → ReadResult) (d : Data) (cols rows : Nat) :
    Data × Option GoError :=
  match d.gids with
  | some _ => (d, none)
  | none =>
    let g0 := allocGrid cols rows
    match d.Encoding with
    | "base64" =>
      let res := decodeBase64 gzipNewReader zlibNewReader b64Read d.RawData
        d.Compression cols rows g0
      ({ d with gids := some res.1 }, res.2)
    | "csv" =>
      let res := decodeCsv d.RawData cols rows g0
      ({ d with gids := some res.1 }, res.2)
    | "" =>
      let res := decodeXml d.Tiles cols rows g0
      ({ d with gids := some res.1 }, res.2)
    | enc => ({ d with gids := some g0 }, some (.unsupportedEncoding enc))

/-! ### Accessors (src/tmx.go `Layer.GetGID`, `Layer.GetRawGID`)

Go's `l.Data.gids[col][row]` panics on a `nil` grid or an out-of-range
index; the total embedding returns `none` exactly in those cases. -/

/-- `func (l *Layer) GetRawGID(col, row int) GID`: the raw identifier,
flags intact; `none` models the panic on a missing grid or an
out-of-range index. -/
def Data.GetRawGID (d : Data) (col row : Int) : Option Nat :=
  match d.gids with
  | none => none
  | some g =>
    if 0 ≤ col ∧ col < (g.cols : Int) ∧ 0 ≤ row ∧ row < (g.rows : Int) then
      some (g.cells col.toNat row.toNat)
    else none

/-- `func (l *Layer) GetGID(col, row int) int`: the identifier after
`GlobalTileID` clears the flip flags. -/
def Data.GetGID (d : Data) (col row : Int) : Option Nat :=
  (d.GetRawGID col row).map GlobalTileID

/-! ### Reference serializers for the round-trip property

These follow the spec's words, not the source (the package only decodes):
a grid given as its row-major list of identifiers is serialized either as
comma-separated decimal text or as the packed little-endian 32-bit binary
form.  They exist solely to state and prove the round-trip property. -/

/-- The decimal digit rune for a value 0–9. -/
def digitChar (d : Nat) : Char := Char.ofNat ('0'.toNat + d)

/-- Big-endian decimal digit runes of `n`; the fuel bounds the number of
digits (any fuel with `n < 10 ^ fuel` is exact). -/
def decCharsAux : Nat → Nat → List Char
  | 0, _ => []
  | fuel + 1, n =>
    if n < 10 then [digitChar n]
    else decCharsAux fuel (n / 10) ++ [digitChar (n % 10)]

/-- The decimal text of one identifier. -/
def decChars (n : Nat) : List Char := decCharsAux (n + 1) n

/-- Join tokens with single commas. -/
def commaJoin : List (List Char) → List Char
  | [] => []
  | [t] => t
  | t :: ts => t ++ ',' :: commaJoin ts

/-- Follows the spec's words: a row-major identifier list serialized as
comma-separated decimal text. -/
def specCsvText (vals : List Nat) : String := ⟨commaJoin (vals.map decChars)⟩

/-- The four little-endian bytes of a 32-bit value. -/
def le32 (v : Nat) : List Nat :=
  [v % 2 ^ 8, v / 2 ^ 8 % 2 ^ 8, v / 2 ^ 16 % 2 ^ 8, v / 2 ^ 24 % 2 ^ 8]

/-- Follows the spec's words: a row-major identifier list serialized as a
packed array of little-endian 32-bit values. -/
def specBinaryBytes (vals : List Nat) : List Nat := vals.flatMap le32

/-! ## GID bit-layout lemmas -/

lemma lor_eq_zero_iff (a b : Nat) : a ||| b = 0 ↔ a = 0 ∧ b = 0 := by
  constructor
  · intro h
    constructor
    · apply Nat.eq_of_testBit_eq
      intro i
      have hi : (a ||| b).testBit i = false := by rw [h]; exact Nat.zero_testBit i
      rw [Nat.testBit_or] at hi
      rw [Nat.zero_testBit]
      exact (Bool.or_eq_false_iff.mp hi).1
    · apply Nat.eq_of_testBit_eq
      intro i
      have hi : (a ||| b).testBit i = false := by rw [h]; exact Nat.zero_testBit i
      rw [Nat.testBit_or] at hi
      rw [Nat.zero_testBit]
      exact (Bool.or_eq_false_iff.mp hi).2
  · rintro ⟨rfl, rfl⟩
    rfl

lemma globalTileID_eq_mod (gid : Nat) : GlobalTileID gid = gid % 2 ^ 29 := by
  have hmask : (0xFFFFFFFF : Nat) ^^^ FlagFlip = 2 ^ 29 - 1 := by decide
  unfold GlobalTileID
  rw [hmask]
  apply Nat.eq_of_testBit_eq
  intro i
  rw [Nat.testBit_land, Nat.testBit_two_pow_sub_one, Nat.testBit_mod_two_pow,
    Bool.and_comm]

lemma and_two_pow_ne_zero (gid k : Nat) :
    decide (gid &&& 2 ^ k ≠ 0) = gid.testBit k := by
  rw [Nat.and_two_pow]
  cases h : gid.testBit k <;> simp

lemma isHorizontalFlip_testBit (gid : Nat) :
    IsHorizontalFlip gid = gid.testBit 31 := by
  have : FlagHorizontalFlip = 2 ^ 31 := by decide
  simp only [IsHorizontalFlip, this, and_two_pow_ne_zero]

lemma isVerticalFlip_testBit (gid : Nat) :
    IsVerticalFlip gid = gid.testBit 30 := by
  have : FlagVerticalFlip = 2 ^ 30 := by decide
  simp only [IsVerticalFlip, this, and_two_pow_ne_zero]

lemma isDiagonalFlip_testBit (gid : Nat) :
    IsDiagonalFlip gid = gid.testBit 29 := by
  have : FlagDiagonalFlip = 2 ^ 29 := by decide
  simp only [IsDiagonalFlip, this, and_two_pow_ne_zero]

lemma isFlip_or (gid : Nat) :
    IsFlip gid =
      (IsHorizontalFlip gid || IsVerticalFlip gid || IsDiagonalFlip gid) := by
  have hsplit : FlagFlip = 2 ^ 31 ||| 2 ^ 30 ||| 2 ^ 29 := by decide
  have hH : FlagHorizontalFlip = 2 ^ 31 := by decide
  have hV : FlagVerticalFlip = 2 ^ 30 := by decide
  have hD : FlagDiagonalFlip = 2 ^ 29 := by decide
  simp only [IsFlip, IsHorizontalFlip, IsVerticalFlip, IsDiagonalFlip,
    hsplit, hH, hV, hD, Nat.and_or_distrib_left]
  by_cases h1 : gid &&& 2 ^ 31 = 0 <;> by_cases h2 : gid &&& 2 ^ 30 = 0 <;>
    by_cases h3 : gid &&& 2 ^ 29 = 0 <;>
      simp [h1, h2, h3, lor_eq_zero_iff, Bool.or_assoc]

/-- C2.  For every 32-bit identifier, `GlobalTileID` clears exactly bits
31, 30 and 29 and keeps bits 0–28 (equivalently, it is reduction mod
`2^29`); each flip predicate tests exactly its own bit; `IsFlip` holds iff
at least one of the three bits is set; and the three predicates are
mutually independent — every one of the 8 flag combinations is realized by
some 32-bit value. -/
theorem gid_bit_layout (gid : Nat) (hgid : gid < 2 ^ 32) :
    GlobalTileID gid = gid % 2 ^ 29 ∧
    (∀ i, i < 29 → (GlobalTileID gid).testBit i = gid.testBit i) ∧
    (∀ i, 29 ≤ i → (GlobalTileID gid).testBit i = false) ∧
    IsHorizontalFlip gid = gid.testBit 31 ∧
    IsVerticalFlip gid = gid.testBit 30 ∧
    IsDiagonalFlip gid = gid.testBit 29 ∧
    IsFlip gid =
      (IsHorizontalFlip gid || IsVerticalFlip gid || IsDiagonalFlip gid) ∧
    (∀ h v d : Bool, ∃ g, g < 2 ^ 32 ∧ IsHorizontalFlip g = h ∧
      IsVerticalFlip g = v ∧ IsDiagonalFlip g = d) := by
  refine ⟨globalTileID_eq_mod gid, ?_, ?_, isHorizontalFlip_testBit gid,
    isVerticalFlip_testBit gid, isDiagonalFlip_testBit gid, isFlip_or gid, ?_⟩
  · intro i hi
    rw [globalTileID_eq_mod, Nat.testBit_mod_two_pow]
    simp [hi]
  · intro i hi
    rw [globalTileID_eq_mod, Nat.testBit_mod_two_pow]
    simp [Nat.not_lt_of_le hi]
  · intro h v d
    rcases h <;> rcases v <;> rcases d
    · exact ⟨0, by decide⟩
    · exact ⟨0x20000000, by decide⟩
    · exact ⟨0x40000000, by decide⟩
    · exact ⟨0x60000000, by decide⟩
    · exact ⟨0x80000000, by decide⟩
    · exact ⟨0xA0000000, by decide⟩
    · exact ⟨0xC0000000, by decide⟩
    · exact ⟨0xE0000000, by decide⟩

/-- Witness for C2 at the concrete identifier `0xA0000007` (horizontal +
diagonal flip of tile index 7). -/
theorem gid_bit_layout_witness :
    (0xA0000007 : Nat) < 2 ^ 32 ∧ GlobalTileID 0xA0000007 = 7 ∧
      IsHorizontalFlip 0xA0000007 = true ∧ IsVerticalFlip 0xA0000007 = false ∧
      IsDiagonalFlip 0xA0000007 = true :=
  ⟨by decide,
    by
      have h := gid_bit_layout 0xA0000007 (by decide)
      refine ⟨?_, by decide, by decide, by decide⟩
      rw [h.1]
      decide⟩

/-! ## Fill-loop invariants -/

lemma fillColsAux_dims (entry : Nat → Except GoError Nat) (row : Nat) :
    ∀ (rem col i : Nat) (g : Grid),
      (fillColsAux entry row rem col i g).1.1.cols = g.cols ∧
      (fillColsAux entry row rem col i g).1.1.rows = g.rows := by
  intro rem
  induction rem with
  | zero => intro col i g; exact ⟨rfl, rfl⟩
  | succ rem ih =>
    intro col i g
    simp only [fillColsAux]
    cases he : entry i with
    | error e => exact ⟨rfl, rfl⟩
    | ok v => simpa [updateCell] using ih (col + 1) (i + 1) (updateCell g col row v)

lemma fillRowsAux_dims (entry : Nat → Except GoError Nat) (cols : Nat) :
    ∀ (rem row i : Nat) (g : Grid),
      (fillRowsAux entry cols rem row i g).1.cols = g.cols ∧
      (fillRowsAux entry cols rem row i g).1.rows = g.rows := by
  intro rem
  induction rem with
  | zero => intro row i g; exact ⟨rfl, rfl⟩
  | succ rem ih =>
    intro row i g
    simp only [fillRowsAux]
    cases hin : fillColsLoop entry row cols 0 i g with
    | mk gi e =>
      obtain ⟨g1, i1⟩ := gi
      have hdims := fillColsAux_dims entry row (cols - 0) 0 i g
      rw [show fillColsAux entry row (cols - 0) 0 i g = fillColsLoop entry row cols 0 i g
        from rfl, hin] at hdims
      cases e with
      | none =>
        exact ⟨(ih (row + 1) i1 g1).1.trans (by simpa using hdims.1),
          (ih (row + 1) i1 g1).2.trans (by simpa using hdims.2)⟩
      | some e => simpa using hdims

lemma fillColsAux_ok (entry : Nat → Except GoError Nat) (row : Nat) :
    ∀ (rem col i : Nat) (g g' : Grid) (i' : Nat),
      fillColsAux entry row rem col i g = ((g', i'), none) →
      i' = i + rem ∧
      (∀ c, col ≤ c → c < col + rem →
        ∃ v, entry (i + (c - col)) = .ok v ∧ g'.cells c row = v) ∧
      (∀ c r, c < col ∨ col + rem ≤ c ∨ r ≠ row → g'.cells c r = g.cells c r) := by
  intro rem
  induction rem with
  | zero =>
    intro col i g g' i' h
    simp only [fillColsAux, Prod.mk.injEq] at h
    obtain ⟨⟨rfl, rfl⟩, -⟩ := h
    exact ⟨rfl, fun c hc1 hc2 => absurd hc2 (by omega), fun c r _ => rfl⟩
  | succ rem ih =>
    intro col i g g' i' h
    simp only [fillColsAux] at h
    cases he : entry i with
    | error e => rw [he] at h; exact absurd h (by simp)
    | ok v =>
      rw [he] at h
      obtain ⟨h1, h2, h3⟩ := ih (col + 1) (i + 1) (updateCell g col row v) g' i' h
      refine ⟨by omega, ?_, ?_⟩
      · intro c hc1 hc2
        rcases Nat.eq_or_lt_of_le hc1 with rfl | hlt
        · refine ⟨v, by simpa using he, ?_⟩
          rw [h3 col row (Or.inl (by omega))]
          simp [updateCell]
        · obtain ⟨w, hw1, hw2⟩ := h2 c (by omega) (by omega)
          refine ⟨w, ?_, hw2⟩
          have harith : i + 1 + (c - (col + 1)) = i + (c - col) := by omega
          rwa [harith] at hw1
      · intro c r hcr
        have hne : ¬(c = col ∧ r = row) := by omega
        rw [h3 c r (by omega)]
        simp only [updateCell]
        rw [if_neg hne]

lemma fillRowsAux_ok (entry : Nat → Except GoError Nat) (cols : Nat) :
    ∀ (rem row i : Nat) (g g' : Grid),
      fillRowsAux entry cols rem row i g = (g', none) →
      (∀ r c, row ≤ r → r < row + rem → c < cols →
        ∃ v, entry (i + ((r - row) * cols + c)) = .ok v ∧ g'.cells c r = v) ∧
      (∀ c r, r < row ∨ row + rem ≤ r ∨ cols ≤ c → g'.cells c r = g.cells c r) := by
  intro rem
  induction rem with
  | zero =>
    intro row i g g' h
    simp only [fillRowsAux, Prod.mk.injEq] at h
    obtain ⟨rfl, -⟩ := h
    exact ⟨fun r c hr1 hr2 _ => absurd hr2 (by omega), fun c r _ => rfl⟩
  | succ rem ih =>
    intro row i g g' h
    simp only [fillRowsAux] at h
    cases hin : fillColsLoop entry row cols 0 i g with
    | mk gi e =>
      obtain ⟨g1, i1⟩ := gi
      rw [hin] at h
      cases e with
      | some e => exact absurd h (by simp)
      | none =>
        obtain ⟨hi1, hrow, hpres1⟩ := fillColsAux_ok entry row (cols - 0) 0 i g g1 i1 hin
        obtain ⟨hrest, hpres2⟩ := ih (row + 1) i1 g1 g' h
        constructor
        · intro r c hr1 hr2 hc
          rcases Nat.eq_or_lt_of_le hr1 with rfl | hlt
          · obtain ⟨v, hv1, hv2⟩ := hrow c (Nat.zero_le c) (by omega)
            refine ⟨v, by simpa using hv1, ?_⟩
            rw [hpres2 c row (Or.inl (by omega))]
            exact hv2
          · obtain ⟨v, hv1, hv2⟩ := hrest r c (by omega) (by omega) hc
            refine ⟨v, ?_, hv2⟩
            have harith : i1 + ((r - (row + 1)) * cols + c) =
                i + ((r - row) * cols + c) := by
              rw [hi1]
              have hrr : r - row = (r - (row + 1)) + 1 := by omega
              rw [hrr, Nat.add_mul, Nat.one_mul]
              have hcols : cols - 0 = cols := rfl
              omega
            rwa [harith] at hv1
        · intro c r hcr
          rw [hpres2 c r (by omega)]
          exact hpres1 c r (by omega)

/-- Every cell of the grid a successful `fillGrid` produces holds the
entry at the row-major position `k = row * cols + col`; equivalently, the
`k`-th entry lands at `(col = k % cols, row = k / cols)`. -/
lemma fillGrid_ok (entry : Nat → Except GoError Nat) (cols rows : Nat) (hc : 0 < cols)
    (g g' : Grid) (h : fillGrid entry cols rows g = (g', none)) :
    ∀ k, k < cols * rows →
      ∃ v, entry k = .ok v ∧ g'.cells (k % cols) (k / cols) = v := by
  obtain ⟨hfill, -⟩ := fillRowsAux_ok entry cols (rows - 0) 0 0 g g' h
  intro k hk
  have hr : k / cols < rows := Nat.div_lt_of_lt_mul hk
  have hcm : k % cols < cols := Nat.mod_lt _ hc
  obtain ⟨v, hv1, hv2⟩ := hfill (k / cols) (k % cols) (Nat.zero_le _) (by omega) hcm
  have hidx : 0 + ((k / cols - 0) * cols + k % cols) = k := by
    simp only [Nat.sub_zero, Nat.zero_add]
    rw [Nat.mul_comm]
    exact Nat.div_add_mod k cols
  rw [hidx] at hv1
  exact ⟨v, hv1, hv2⟩

/-- The fill loops cannot fail when every entry is `.ok`. -/
lemma fillColsAux_snd (f : Nat → Nat) (row : Nat) :
    ∀ (rem col i : Nat) (g : Grid),
      (fillColsAux (fun j => .ok (f j)) row rem col i g).2 = none := by
  intro rem
  induction rem with
  | zero => intro col i g; rfl
  | succ rem ih => intro col i g; simpa [fillColsAux] using ih (col + 1) (i + 1) _

lemma fillRowsAux_snd (f : Nat → Nat) (cols : Nat) :
    ∀ (rem row i : Nat) (g : Grid),
      (fillRowsAux (fun j => .ok (f j)) cols rem row i g).2 = none := by
  intro rem
  induction rem with
  | zero => intro row i g; rfl
  | succ rem ih =>
    intro row i g
    simp only [fillRowsAux]
    cases hin : fillColsLoop (fun j => .ok (f j)) row cols 0 i g with
    | mk gi e =>
      obtain ⟨g1, i1⟩ := gi
      have : e = none := by
        have := fillColsAux_snd f row (cols - 0) 0 i g
        rw [show fillColsAux (fun j => .ok (f j)) row (cols - 0) 0 i g =
          fillColsLoop (fun j => .ok (f j)) row cols 0 i g from rfl, hin] at this
        exact this
      subst this
      exact ih (row + 1) i1 g1

/-- `fillGrid` with infallible entries returns no error. -/
lemma fillGrid_snd (f : Nat → Nat) (cols rows : Nat) (g : Grid) :
    (fillGrid (fun j => .ok (f j)) cols rows g).2 = none :=
  fillRowsAux_snd f cols (rows - 0) 0 0 g

/-! ## Decoder-level success lemmas -/

lemma decodeXml_ok (tiles : List Nat) (cols rows : Nat) (hc : 0 < cols)
    (g g' : Grid) (h : decodeXml tiles cols rows g = (g', none)) :
    tiles.length = cols * rows ∧
    ∀ k, k < cols * rows → g'.cells (k % cols) (k / cols) = tiles.getD k 0 := by
  unfold decodeXml at h
  split at h
  · exact absurd h (by simp)
  · next hlen =>
    refine ⟨by omega, ?_⟩
    intro k hk
    obtain ⟨v, hv1, hv2⟩ := fillGrid_ok _ cols rows hc g g' h k hk
    injection hv1 with hv1
    rw [hv2, ← hv1]

lemma decodeCsv_ok (raw : String) (cols rows : Nat) (hc : 0 < cols)
    (g g' : Grid) (h : decodeCsv raw cols rows g = (g', none)) :
    (splitComma (cleanData raw.data)).length = cols * rows ∧
    ∀ k, k < cols * rows →
      ∃ w, Atoi ⟨(splitComma (cleanData raw.data)).getD k []⟩ = .ok w ∧
        g'.cells (k % cols) (k / cols) = intToUint32 w := by
  simp only [decodeCsv] at h
  split at h
  · exact absurd h (by simp)
  · next hlen =>
    refine ⟨by omega, ?_⟩
    intro k hk
    obtain ⟨v, hv1, hv2⟩ := fillGrid_ok _ cols rows hc g g' h k hk
    cases hA : Atoi ⟨(splitComma (cleanData raw.data)).getD k []⟩ with
    | error e => rw [hA] at hv1; exact absurd hv1 (by simp [Except.map])
    | ok w =>
      rw [hA] at hv1
      simp only [Except.map] at hv1
      injection hv1 with hv1
      exact ⟨w, rfl, by rw [hv2, ← hv1]⟩

lemma decodeBase64Tail_ok (r : ReadResult) (cols rows : Nat) (hc : 0 < cols)
    (g g' : Grid) (h : decodeBase64Tail r cols rows g = (g', none)) :
    r.1.length / 4 = cols * rows ∧
    ∀ k, k < cols * rows → g'.cells (k % cols) (k / cols) = uint32LE r.1 (k * 4) := by
  simp only [decodeBase64Tail] at h
  split at h
  · exact absurd h (by simp)
  · next hlen =>
    refine ⟨by omega, ?_⟩
    intro k hk
    obtain ⟨v, hv1, hv2⟩ := fillGrid_ok _ cols rows hc g g' h k hk
    injection hv1 with hv1
    rw [hv2, ← hv1]

/-- C1.  For every encoding and all positive `cols`, `rows`, a successful
decode places the `k`-th payload entry at grid position
`(col = k % cols, row = k / cols)`: for the XML list the `k`-th entry is
`Tiles[k]`; for csv it is the parsed `k`-th token (converted to `uint32`);
for base64 binary it is the little-endian 32-bit word at byte offset `4*k`
of the decoded buffer.  Concretely, with `cols = 2, rows = 2` and csv
payload `"1,2,3,4"`, the decoded layer satisfies `identifierAt(0,0)=1`,
`identifierAt(1,0)=2`, `identifierAt(0,1)=3`, `identifierAt(1,1)=4`. -/
theorem decode_row_major (cols rows : Nat) (hc : 0 < cols) (hr : 0 < rows) :
    (∀ (tiles : List Nat) (g' : Grid),
      decodeXml tiles cols rows (allocGrid cols rows) = (g', none) →
      ∀ k, k < cols * rows → g'.cells (k % cols) (k / cols) = tiles.getD k 0) ∧
    (∀ (raw : String) (g' : Grid),
      decodeCsv raw cols rows (allocGrid cols rows) = (g', none) →
      ∀ k, k < cols * rows →
        ∃ w, Atoi ⟨(splitComma (cleanData raw.data)).getD k []⟩ = .ok w ∧
          g'.cells (k % cols) (k / cols) = intToUint32 w) ∧
    (∀ (r : ReadResult) (g' : Grid),
      decodeBase64Tail r cols rows (allocGrid cols rows) = (g', none) →
      ∀ k, k < cols * rows → g'.cells (k % cols) (k / cols) = uint32LE r.1 (k * 4)) ∧
    (∀ (gz zl : ReadResult → Except GoError ReadResult) (b64 : String → ReadResult),
      (Data.decode gz zl b64 ⟨"csv", "", "1,2,3,4", [], none⟩ 2 2).1.GetRawGID 0 0
          = some 1 ∧
      (Data.decode gz zl b64 ⟨"csv", "", "1,2,3,4", [], none⟩ 2 2).1.GetRawGID 1 0
          = some 2 ∧
      (Data.decode gz zl b64 ⟨"csv", "", "1,2,3,4", [], none⟩ 2 2).1.GetRawGID 0 1
          = some 3 ∧
      (Data.decode gz zl b64 ⟨"csv", "", "1,2,3,4", [], none⟩ 2 2).1.GetRawGID 1 1
          = some 4) := by
  refine ⟨fun tiles g' h => (decodeXml_ok tiles cols rows hc _ g' h).2,
    fun raw g' h => (decodeCsv_ok raw cols rows hc _ g' h).2,
    fun r g' h => (decodeBase64Tail_ok r cols rows hc _ g' h).2,
    fun gz zl b64 => ⟨rfl, rfl, rfl, rfl⟩⟩

/-- Witness for C1 at `cols = rows = 2` with the concrete csv scenario. -/
theorem decode_row_major_witness :
    (0 : Nat) < 2 ∧
    (Data.decode (fun r => .ok r) (fun r => .ok r) (fun _ => ([], none))
      ⟨"csv", "", "1,2,3,4", [], none⟩ 2 2).1.GetRawGID 1 1 = some 4 :=
  ⟨by decide,
    ((decode_row_major 2 2 (by decide) (by decide)).2.2.2
      (fun r => .ok r) (fun r => .ok r) (fun _ => ([], none))).2.2.2⟩

/-! ## Length check of the binary decoder (C3) -/

/-- C3 counterexample: a decoded byte buffer of length 5 with
`cols = rows = 1` is not exactly `4 * cols * rows = 4` bytes long, yet the
binary decode succeeds, because the source checks `len(buf)/4 != cols*rows`
with floor division.  The claim that every buffer whose length is not
exactly `4*cols*rows` fails is therefore false. -/
theorem base64_length_floor_cex :
    (decodeBase64 (fun r => .ok r) (fun r => .ok r)
      (fun _ => ([1, 0, 0, 0, 9], none)) "" "" 1 1 (allocGrid 1 1)).2 = none ∧
    ([1, 0, 0, 0, 9] : List Nat).length ≠ 4 * (1 * 1) :=
  ⟨rfl, by decide⟩

/-- C3 amended: the binary decode fails with the length-mismatch error —
carrying `got = len(buf)/4` and `want = cols*rows` — exactly when
`len(buf)/4 ≠ cols*rows` under floor division; buffer lengths
`4*cols*rows` up to `4*cols*rows + 3` all pass the check and decode
succeeds, the trailing 1–3 bytes being ignored. -/
theorem base64_length_floor (r : ReadResult) (cols rows : Nat) (g : Grid) :
    (decodeBase64Tail r cols rows g).2 =
      (if r.1.length / 4 ≠ cols * rows then
        some (.lengthMismatch "decodeBase64" (r.1.length / 4) (cols * rows))
      else none) := by
  simp only [decodeBase64Tail]
  split
  · rfl
  · exact fillGrid_snd _ cols rows g

/-! ## Decompression errors (C4) -/

/-- C4 counterexample: with the gzip stage modelled as a reader whose
header parses but whose stream is corrupt mid-way (`ReadAll` returns the
bytes read so far together with an error), the binary decode silently
succeeds when the partial buffer happens to have the right length, and
reports only a length mismatch when it does not — never a decompression
error, because the source discards the `ReadAll` error value. -/
theorem decompression_error_swallowed_cex :
    (decodeBase64
      (fun _ => .ok ([1, 0, 0, 0], some (.codecError "unexpected EOF")))
      (fun r => .ok r) (fun _ => ([], none)) "" "gzip" 1 1 (allocGrid 1 1)).2
        = none ∧
    (decodeBase64
      (fun _ => .ok ([], some (.codecError "unexpected EOF")))
      (fun r => .ok r) (fun _ => ([], none)) "" "gzip" 1 1 (allocGrid 1 1)).2
        = some (.lengthMismatch "decodeBase64" 0 1) :=
  ⟨rfl, rfl⟩

/-- C4 amended: a gzip/zlib header-stage failure (`gzip.NewReader` /
`zlib.NewReader` returning an error) propagates the codec's error
unchanged; but once a reader is obtained, the error component of the
`ReadAll` result is discarded — the outcome is determined by the partial
byte buffer alone, so mid-stream corruption yields a silent success or a
bare length mismatch instead of a decompression error. -/
theorem decompression_error_amended
    (gz zl : ReadResult → Except GoError ReadResult) (b64 : String → ReadResult)
    (raw : String) (cols rows : Nat) (g : Grid) :
    (∀ e : GoError, gz (b64 (trimSpace raw)) = .error e →
      decodeBase64 gz zl b64 raw "gzip" cols rows g = (g, some e)) ∧
    (∀ e : GoError, zl (b64 (trimSpace raw)) = .error e →
      decodeBase64 gz zl b64 raw "zlib" cols rows g = (g, some e)) ∧
    (∀ (buf : List Nat) (re : Option GoError), gz (b64 (trimSpace raw)) = .ok (buf, re) →
      decodeBase64 gz zl b64 raw "gzip" cols rows g =
        decodeBase64Tail (buf, none) cols rows g) ∧
    (∀ (buf : List Nat) (re : Option GoError), zl (b64 (trimSpace raw)) = .ok (buf, re) →
      decodeBase64 gz zl b64 raw "zlib" cols rows g =
        decodeBase64Tail (buf, none) cols rows g) := by
  refine ⟨fun e he => ?_, fun e he => ?_, fun buf re he => ?_, fun buf re he => ?_⟩ <;>
    simp only [decodeBase64, he] <;> rfl

/-- Witness for C4's amended theorem: a concrete header-stage gzip failure
propagates, and a concrete mid-stream failure is discarded. -/
theorem decompression_error_amended_witness :
    decodeBase64 (fun _ => .error (.codecError "gzip: invalid header"))
      (fun r => .ok r) (fun _ => ([], none)) "" "gzip" 1 1 (allocGrid 1 1) =
      (allocGrid 1 1, some (.codecError "gzip: invalid header")) ∧
    decodeBase64 (fun _ => .ok ([1, 0, 0, 0], some (.codecError "unexpected EOF")))
      (fun r => .ok r) (fun _ => ([], none)) "" "gzip" 1 1 (allocGrid 1 1) =
      decodeBase64Tail ([1, 0, 0, 0], none) 1 1 (allocGrid 1 1) :=
  ⟨(decompression_error_amended (fun _ => .error (.codecError "gzip: invalid header"))
      (fun r => .ok r) (fun _ => ([], none)) "" 1 1 (allocGrid 1 1)).1
      (.codecError "gzip: invalid header") rfl,
    (decompression_error_amended
      (fun _ => .ok ([1, 0, 0, 0], some (.codecError "unexpected EOF")))
      (fun r => .ok r) (fun _ => ([], none)) "" 1 1 (allocGrid 1 1)).2.2.1
      [1, 0, 0, 0] (some (.codecError "unexpected EOF")) rfl⟩

/-! ## Dimension preservation and the decode dispatcher state (C5–C7, C9) -/

lemma decodeCsv_dims (raw : String) (cols rows : Nat) (g : Grid) :
    (decodeCsv raw cols rows g).1.cols = g.cols ∧
    (decodeCsv raw cols rows g).1.rows = g.rows := by
  simp only [decodeCsv]
  split
  · exact ⟨rfl, rfl⟩
  · exact fillRowsAux_dims _ cols (rows - 0) 0 0 g

lemma decodeXml_dims (tiles : List Nat) (cols rows : Nat) (g : Grid) :
    (decodeXml tiles cols rows g).1.cols = g.cols ∧
    (decodeXml tiles cols rows g).1.rows = g.rows := by
  simp only [decodeXml]
  split
  · exact ⟨rfl, rfl⟩
  · exact fillRowsAux_dims _ cols (rows - 0) 0 0 g

lemma decodeBase64Tail_dims (r : ReadResult) (cols rows : Nat) (g : Grid) :
    (decodeBase64Tail r cols rows g).1.cols = g.cols ∧
    (decodeBase64Tail r cols rows g).1.rows = g.rows := by
  simp only [decodeBase64Tail]
  split
  · exact ⟨rfl, rfl⟩
  · exact fillRowsAux_dims _ cols (rows - 0) 0 0 g

lemma decodeBase64_dims (gz zl : ReadResult → Except GoError ReadResult)
    (b64 : String → ReadResult) (raw comp : String) (cols rows : Nat) (g : Grid) :
    (decodeBase64 gz zl b64 raw comp cols rows g).1.cols = g.cols ∧
    (decodeBase64 gz zl b64 raw comp cols rows g).1.rows = g.rows := by
  simp only [decodeBase64]
  split
  · exact ⟨rfl, rfl⟩
  · exact decodeBase64Tail_dims _ cols rows g

/-- A memoised layer: once `gids` is non-nil, `decode` returns at once
with no error and no state change. -/
lemma decode_memo (gz zl : ReadResult → Except GoError ReadResult)
    (b64 : String → ReadResult) (d : Data) (g : Grid) (hg : d.gids = some g)
    (cols rows : Nat) : Data.decode gz zl b64 d cols rows = (d, none) := by
  unfold Data.decode
  rw [hg]

/-- Any `decode` run from a fresh layer attaches a `cols × rows` grid,
error or not. -/
lemma decode_attaches (gz zl : ReadResult → Except GoError ReadResult)
    (b64 : String → ReadResult) (d : Data) (hd : d.gids = none) (cols rows : Nat) :
    ∃ g : Grid, (Data.decode gz zl b64 d cols rows).1.gids = some g ∧
      g.cols = cols ∧ g.rows = rows := by
  simp only [Data.decode, hd]
  split
  · exact ⟨(decodeBase64 gz zl b64 d.RawData d.Compression cols rows
        (allocGrid cols rows)).1, rfl,
      (decodeBase64_dims gz zl b64 d.RawData d.Compression cols rows
        (allocGrid cols rows)).1,
      (decodeBase64_dims gz zl b64 d.RawData d.Compression cols rows
        (allocGrid cols rows)).2⟩
  · exact ⟨(decodeCsv d.RawData cols rows (allocGrid cols rows)).1, rfl,
      (decodeCsv_dims d.RawData cols rows (allocGrid cols rows)).1,
      (decodeCsv_dims d.RawData cols rows (allocGrid cols rows)).2⟩
  · exact ⟨(decodeXml d.Tiles cols rows (allocGrid cols rows)).1, rfl,
      (decodeXml_dims d.Tiles cols rows (allocGrid cols rows)).1,
      (decodeXml_dims d.Tiles cols rows (allocGrid cols rows)).2⟩
  · exact ⟨allocGrid cols rows, rfl, rfl, rfl⟩

/-- C7.  Idempotence of decode: once the grid has been populated for a
layer, a further call to `decode` returns without error and with the layer
state — in particular the grid — unchanged bit for bit, re-running no
decoding step. -/
theorem decode_idempotent (gz zl : ReadResult → Except GoError ReadResult)
    (b64 : String → ReadResult) (d : Data) (g : Grid) (hg : d.gids = some g)
    (cols rows : Nat) : Data.decode gz zl b64 d cols rows = (d, none) :=
  decode_memo gz zl b64 d g hg cols rows

/-- Witness for C7 on a concrete already-decoded layer. -/
theorem decode_idempotent_witness :
    Data.decode (fun r => .ok r) (fun r => .ok r) (fun _ => ([], none))
      ⟨"csv", "", "1", [], some (allocGrid 1 1)⟩ 1 1 =
      (⟨"csv", "", "1", [], some (allocGrid 1 1)⟩, none) :=
  decode_idempotent (fun r => .ok r) (fun r => .ok r) (fun _ => ([], none))
    ⟨"csv", "", "1", [], some (allocGrid 1 1)⟩ (allocGrid 1 1) rfl 1 1

/-- C9.  When `decode` fails on a fresh layer, the `cols × rows` grid
allocated before the dispatch remains attached, so the layer is
indistinguishable from a successfully decoded one: the in-range accessors
are defined on it, and a second `decode` call returns success without
re-attempting anything — the error is not cached. -/
theorem decode_error_state (gz zl : ReadResult → Except GoError ReadResult)
    (b64 : String → ReadResult) (d : Data) (hd : d.gids = none) (cols rows : Nat)
    (e : GoError) (he : (Data.decode gz zl b64 d cols rows).2 = some e) :
    ∃ g : Grid, (Data.decode gz zl b64 d cols rows).1.gids = some g ∧
      g.cols = cols ∧ g.rows = rows ∧
      (∀ c r : Int, 0 ≤ c → c < (cols : Int) → 0 ≤ r → r < (rows : Int) →
        ((Data.decode gz zl b64 d cols rows).1.GetRawGID c r).isSome) ∧
      Data.decode gz zl b64 (Data.decode gz zl b64 d cols rows).1 cols rows =
        ((Data.decode gz zl b64 d cols rows).1, none) := by
  obtain ⟨g, hg, hgc, hgr⟩ := decode_attaches gz zl b64 d hd cols rows
  refine ⟨g, hg, hgc, hgr, ?_, decode_memo gz zl b64 _ g hg cols rows⟩
  intro c r hc1 hc2 hr1 hr2
  simp only [Data.GetRawGID, hg]
  rw [if_pos ⟨hc1, by rw [hgc]; exact hc2, hr1, by rw [hgr]; exact hr2⟩]
  rfl

/-- Witness for C9: a failing decode (unknown encoding tag "rle") leaves
an attached grid and a successful second call. -/
theorem decode_error_state_witness :
    (Data.decode (fun r => .ok r) (fun r => .ok r) (fun _ => ([], none))
      ⟨"rle", "", "", [], none⟩ 2 2).2 = some (.unsupportedEncoding "rle") ∧
    ∃ g : Grid, (Data.decode (fun r => .ok r) (fun r => .ok r) (fun _ => ([], none))
      ⟨"rle", "", "", [], none⟩ 2 2).1.gids = some g ∧
      g.cols = 2 ∧ g.rows = 2 ∧
      (∀ c r : Int, 0 ≤ c → c < (2 : Int) → 0 ≤ r → r < (2 : Int) →
        ((Data.decode (fun r => .ok r) (fun r => .ok r) (fun _ => ([], none))
          ⟨"rle", "", "", [], none⟩ 2 2).1.GetRawGID c r).isSome) ∧
      Data.decode (fun r => .ok r) (fun r => .ok r) (fun _ => ([], none))
        (Data.decode (fun r => .ok r) (fun r => .ok r) (fun _ => ([], none))
          ⟨"rle", "", "", [], none⟩ 2 2).1 2 2 =
        ((Data.decode (fun r => .ok r) (fun r => .ok r) (fun _ => ([], none))
          ⟨"rle", "", "", [], none⟩ 2 2).1, none) :=
  ⟨rfl, decode_error_state (fun r => .ok r) (fun r => .ok r) (fun _ => ([], none))
    ⟨"rle", "", "", [], none⟩ rfl 2 2 (.unsupportedEncoding "rle") rfl⟩

/-! ## Unsupported encoding tags (C5) -/

/-- C5 counterexample: with the unrecognized encoding tag "rle", `decode`
does fail with the unsupported-encoding error naming the tag, but a (zero
filled) `cols × rows` grid HAS been attached to the layer and the
accessors expose it — `GetRawGID 0 0` returns a value instead of being
undefined, so "no partial grid is exposed to accessors" is false. -/
theorem unsupported_encoding_cex :
    (Data.decode (fun r => .ok r) (fun r => .ok r) (fun _ => ([], none))
      ⟨"rle", "", "", [], none⟩ 2 2).2 = some (.unsupportedEncoding "rle") ∧
    (Data.decode (fun r => .ok r) (fun r => .ok r) (fun _ => ([], none))
      ⟨"rle", "", "", [], none⟩ 2 2).1.gids = some (allocGrid 2 2) ∧
    (Data.decode (fun r => .ok r) (fun r => .ok r) (fun _ => ([], none))
      ⟨"rle", "", "", [], none⟩ 2 2).1.GetRawGID 0 0 = some 0 :=
  ⟨rfl, rfl, rfl⟩

/-- C5 amended: for every encoding tag other than "base64", "csv" and "",
`decode` fails with the unsupported-encoding error naming the rejected
tag; however the freshly allocated zero grid remains attached to the
layer, and the in-range accessors expose it. -/
theorem unsupported_encoding (gz zl : ReadResult → Except GoError ReadResult)
    (b64 : String → ReadResult) (d : Data) (hd : d.gids = none) (cols rows : Nat)
    (h1 : d.Encoding ≠ "base64") (h2 : d.Encoding ≠ "csv") (h3 : d.Encoding ≠ "") :
    Data.decode gz zl b64 d cols rows =
      ({ d with gids := some (allocGrid cols rows) },
        some (.unsupportedEncoding d.Encoding)) := by
  simp only [Data.decode, hd]

/-- Witness for C5's amended theorem at the concrete tag "rle". -/
theorem unsupported_encoding_witness :
    Data.decode (fun r => .ok r) (fun r => .ok r) (fun _ => ([], none))
      ⟨"rle", "", "", [], none⟩ 2 2 =
      (⟨"rle", "", "", [], some (allocGrid 2 2)⟩,
        some (.unsupportedEncoding "rle")) :=
  unsupported_encoding (fun r => .ok r) (fun r => .ok r) (fun _ => ([], none))
    ⟨"rle", "", "", [], none⟩ rfl 2 2 (by decide) (by decide) (by decide)

/-! ## Compression tag outside the binary encoding (C6) -/

/-- C6 counterexample: a csv layer carrying the compression tag "gzip"
does not fail with an unsupported-compression error: `decode` ignores the
tag entirely, succeeds, and decodes the payload as if uncompressed. -/
theorem nonbinary_compression_cex :
    (Data.decode (fun r => .ok r) (fun r => .ok r) (fun _ => ([], none))
      ⟨"csv", "gzip", "1,2,3,4", [], none⟩ 2 2).2 = none ∧
    (Data.decode (fun r => .ok r) (fun r => .ok r) (fun _ => ([], none))
      ⟨"csv", "gzip", "1,2,3,4", [], none⟩ 2 2).1.GetRawGID 1 1 = some 4 :=
  ⟨rfl, rfl⟩

/-- C6 amended: when the encoding is "csv" or "" (XML), the compression
tag is never consulted: the decode outcome — resulting grid and error —
is identical for every value of the tag, i.e. the payload is decoded as if
uncompressed rather than being rejected. -/
theorem nonbinary_compression_ignored
    (gz zl : ReadResult → Except GoError ReadResult) (b64 : String → ReadResult)
    (d : Data) (cols rows : Nat) (comp : String)
    (henc : d.Encoding = "csv" ∨ d.Encoding = "") :
    (Data.decode gz zl b64 { d with Compression := comp } cols rows).1.gids =
      (Data.decode gz zl b64 d cols rows).1.gids ∧
    (Data.decode gz zl b64 { d with Compression := comp } cols rows).2 =
      (Data.decode gz zl b64 d cols rows).2 := by
  have hgids : ({ d with Compression := comp } : Data).gids = d.gids := rfl
  have henc2 : ({ d with Compression := comp } : Data).Encoding = d.Encoding := rfl
  cases hg : d.gids with
  | some g => constructor <;> simp only [Data.decode, hgids, henc2, hg]
  | none =>
    rcases henc with h | h <;> constructor <;>
      simp only [Data.decode, hgids, henc2, hg, h]

/-- Witness for C6's amended theorem: csv decode outcome unchanged by a
"gzip" compression tag. -/
theorem nonbinary_compression_ignored_witness :
    (Data.decode (fun r => .ok r) (fun r => .ok r) (fun _ => ([], none))
      ⟨"csv", "gzip", "1,2,3,4", [], none⟩ 2 2).2 =
      (Data.decode (fun r => .ok r) (fun r => .ok r) (fun _ => ([], none))
        ⟨"csv", "", "1,2,3,4", [], none⟩ 2 2).2 :=
  (nonbinary_compression_ignored (fun r => .ok r) (fun r => .ok r)
    (fun _ => ([], none)) ⟨"csv", "", "1,2,3,4", [], none⟩ 2 2 "gzip"
    (Or.inl rfl)).2

/-! ## Accessors (C10) -/

/-- C10.  The accessors perform no bounds check of their own: over a
decoded layer, `GetRawGID` (and so `GetGID`) is defined — returns a value
in the total embedding, instead of panicking — exactly when
`0 ≤ col < cols` and `0 ≤ row < rows`; and wherever defined, `GetGID`
returns `GetRawGID` with the top three flag bits cleared (reduction mod
`2^29`). -/
theorem accessors_in_range (d : Data) (g : Grid) (hg : d.gids = some g)
    (cols rows : Nat) (hc : g.cols = cols) (hr : g.rows = rows) :
    ∀ col row : Int,
      ((d.GetRawGID col row).isSome ↔
        0 ≤ col ∧ col < (cols : Int) ∧ 0 ≤ row ∧ row < (rows : Int)) ∧
      ((d.GetGID col row).isSome ↔ (d.GetRawGID col row).isSome) ∧
      (∀ v, d.GetRawGID col row = some v → d.GetGID col row = some (v % 2 ^ 29)) := by
  intro col row
  subst hc hr
  refine ⟨?_, ?_, ?_⟩
  · simp only [Data.GetRawGID, hg]
    split
    · next h => simpa using h
    · next h => simpa using h
  · simp only [Data.GetGID]
    cases d.GetRawGID col row <;> simp
  · intro v hv
    simp only [Data.GetGID, hv]
    simp [globalTileID_eq_mod]

/-- Witness for C10 on a concrete decoded layer: inside the 1×1 grid the
accessors return values, outside they do not. -/
theorem accessors_in_range_witness :
    ((Data.GetRawGID ⟨"", "", "", [], some (allocGrid 1 1)⟩ 0 0).isSome ↔
      (0 : Int) ≤ 0 ∧ (0 : Int) < 1 ∧ (0 : Int) ≤ 0 ∧ (0 : Int) < 1) ∧
    ((Data.GetRawGID ⟨"", "", "", [], some (allocGrid 1 1)⟩ 1 0).isSome ↔
      (0 : Int) ≤ 1 ∧ (1 : Int) < 1 ∧ (0 : Int) ≤ 0 ∧ (0 : Int) < 1) ∧
    ((Data.GetRawGID ⟨"", "", "", [], some (allocGrid 1 1)⟩ (-1) 0).isSome ↔
      (0 : Int) ≤ -1 ∧ (-1 : Int) < 1 ∧ (0 : Int) ≤ 0 ∧ (0 : Int) < 1) :=
  ⟨(accessors_in_range ⟨"", "", "", [], some (allocGrid 1 1)⟩ (allocGrid 1 1)
      rfl 1 1 rfl rfl 0 0).1,
    (accessors_in_range ⟨"", "", "", [], some (allocGrid 1 1)⟩ (allocGrid 1 1)
      rfl 1 1 rfl rfl 1 0).1,
    (accessors_in_range ⟨"", "", "", [], some (allocGrid 1 1)⟩ (allocGrid 1 1)
      rfl 1 1 rfl rfl (-1) 0).1⟩

/-! ## Round trip (C8): the fill loops succeed on infallible entries -/

lemma fillColsAux_ok_of (entry : Nat → Except GoError Nat) (row : Nat) :
    ∀ (rem col i : Nat) (g : Grid),
      (∀ j, i ≤ j → j < i + rem → ∃ v, entry j = .ok v) →
      ∃ g', fillColsAux entry row rem col i g = ((g', i + rem), none) := by
  intro rem
  induction rem with
  | zero => intro col i g _; exact ⟨g, rfl⟩
  | succ rem ih =>
    intro col i g hent
    obtain ⟨v, hv⟩ := hent i (Nat.le_refl i) (by omega)
    obtain ⟨g', hg'⟩ := ih (col + 1) (i + 1) (updateCell g col row v)
      (fun j hj1 hj2 => hent j (by omega) (by omega))
    have harith : i + 1 + rem = i + (rem + 1) := by omega
    rw [harith] at hg'
    refine ⟨g', ?_⟩
    simp only [fillColsAux, hv]
    exact hg'

lemma fillRowsAux_ok_of (entry : Nat → Except GoError Nat) (cols : Nat) :
    ∀ (rem row i : Nat) (g : Grid),
      (∀ j, i ≤ j → j < i + rem * cols → ∃ v, entry j = .ok v) →
      ∃ g', fillRowsAux entry cols rem row i g = (g', none) := by
  intro rem
  induction rem with
  | zero => intro row i g _; exact ⟨g, rfl⟩
  | succ rem ih =>
    intro row i g hent
    have hcle : cols ≤ (rem + 1) * cols := Nat.le_mul_of_pos_left cols (Nat.succ_pos rem)
    obtain ⟨g1, hg1⟩ := fillColsAux_ok_of entry row cols 0 i g
      (fun j h1 h2 => hent j h1 (Nat.lt_of_lt_of_le h2 (Nat.add_le_add_left hcle i)))
    obtain ⟨g', hg'⟩ := ih (row + 1) (i + cols) g1
      (fun j h1 h2 => hent j (Nat.le_trans (Nat.le_add_right i cols) h1)
        (by have e : i + (rem + 1) * cols = i + cols + rem * cols := by ring
            rw [e]; exact h2))
    refine ⟨g', ?_⟩
    simp only [fillRowsAux, fillColsLoop, Nat.sub_zero, hg1]
    exact hg'

lemma fillGrid_ok_of (entry : Nat → Except GoError Nat) (cols rows : Nat) (g : Grid)
    (hent : ∀ j, j < cols * rows → ∃ v, entry j = .ok v) :
    ∃ g', fillGrid entry cols rows g = (g', none) :=
  fillRowsAux_ok_of entry cols (rows - 0) 0 0 g
    (fun j _ hj => hent j (by rw [Nat.mul_comm]; simpa using hj))

/-! ## Round trip (C8): decimal digits and `Atoi` -/

lemma digitVal_digitChar (d : Nat) (hd : d < 10) : digitVal (digitChar d) = some d := by
  interval_cases d <;> decide

lemma digitChar_isSome (d : Nat) (hd : d < 10) : (digitVal (digitChar d)).isSome := by
  rw [digitVal_digitChar d hd]; rfl

lemma digit_cond_of_isSome (c : Char) (h : (digitVal c).isSome) : '0' ≤ c ∧ c ≤ '9' := by
  by_cases hcond : '0' ≤ c ∧ c ≤ '9'
  · exact hcond
  · unfold digitVal at h
    rw [if_neg hcond] at h
    simp at h

lemma parseDigitsAux_digits :
    ∀ (l : List Char) (acc : Nat), (∀ c ∈ l, (digitVal c).isSome) →
      parseDigitsAux l acc =
        some (l.foldl (fun a c => a * 10 + (digitVal c).getD 0) acc) := by
  intro l
  induction l with
  | nil => intro acc _; rfl
  | cons c cs ih =>
    intro acc h
    have hc := h c (List.mem_cons_self c cs)
    cases hd : digitVal c with
    | none => rw [hd] at hc; simp at hc
    | some d =>
      simp only [parseDigitsAux, hd, List.foldl_cons, Option.getD_some]
      exact ih (acc * 10 + d) (fun x hx => h x (List.mem_cons_of_mem c hx))

lemma decCharsAux_spec :
    ∀ (fuel n : Nat), n < 10 ^ (fuel + 1) →
      decCharsAux (fuel + 1) n ≠ [] ∧
      (∀ c ∈ decCharsAux (fuel + 1) n, (digitVal c).isSome) ∧
      (decCharsAux (fuel + 1) n).foldl (fun a c => a * 10 + (digitVal c).getD 0) 0
        = n := by
  intro fuel
  induction fuel with
  | zero =>
    intro n hn
    have h10 : n < 10 := by simpa using hn
    simp only [decCharsAux, if_pos h10]
    refine ⟨by simp, ?_, ?_⟩
    · intro c hcm
      rw [List.mem_singleton] at hcm
      subst hcm
      exact digitChar_isSome n h10
    · simp [digitVal_digitChar n h10]
  | succ fuel ih =>
    intro n hn
    by_cases h10 : n < 10
    · simp only [decCharsAux, if_pos h10]
      refine ⟨by simp, ?_, by simp [digitVal_digitChar n h10]⟩
      intro c hcm
      rw [List.mem_singleton] at hcm
      subst hcm
      exact digitChar_isSome n h10
    · have hstep : decCharsAux (fuel + 1 + 1) n =
          decCharsAux (fuel + 1) (n / 10) ++ [digitChar (n % 10)] := by
        rw [show decCharsAux (fuel + 1 + 1) n = (if n < 10 then [digitChar n]
          else decCharsAux (fuel + 1) (n / 10) ++ [digitChar (n % 10)]) from rfl,
          if_neg h10]
      rw [hstep]
      have hdiv : n / 10 < 10 ^ (fuel + 1) := by
        apply Nat.div_lt_of_lt_mul
        calc n < 10 ^ (fuel + 1 + 1) := hn
        _ = 10 * 10 ^ (fuel + 1) := by ring
      obtain ⟨hne, hdig, hval⟩ := ih (n / 10) hdiv
      refine ⟨by simp, ?_, ?_⟩
      · intro c hcm
        rcases List.mem_append.mp hcm with h | h
        · exact hdig c h
        · rw [List.mem_singleton] at h
          subst h
          exact digitChar_isSome (n % 10) (Nat.mod_lt n (by norm_num))
      · rw [List.foldl_append, hval]
        simp only [List.foldl_cons, List.foldl_nil,
          digitVal_digitChar (n % 10) (Nat.mod_lt n (by norm_num)), Option.getD_some]
        omega

lemma decChars_spec (n : Nat) :
    decChars n ≠ [] ∧ (∀ c ∈ decChars n, (digitVal c).isSome) ∧
      (decChars n).foldl (fun a c => a * 10 + (digitVal c).getD 0) 0 = n :=
  decCharsAux_spec n n (Nat.lt_of_lt_of_le (Nat.lt_pow_self (by norm_num) n)
    (Nat.pow_le_pow_right (by norm_num) (Nat.le_succ n)))

lemma Atoi_all_digits (l : List Char) (hne : l ≠ [])
    (hdig : ∀ c ∈ l, (digitVal c).isSome)
    (hrange : l.foldl (fun a c => a * 10 + (digitVal c).getD 0) 0 < 2 ^ 63) :
    Atoi ⟨l⟩ = .ok ((l.foldl (fun a c => a * 10 + (digitVal c).getD 0) 0 : Nat) : Int) := by
  cases l with
  | nil => exact absurd rfl hne
  | cons c cs =>
    have hc : (digitVal c).isSome := hdig c (List.mem_cons_self c cs)
    have hcp : c ≠ '+' := by rintro rfl; exact absurd hc (by decide)
    have hcm : c ≠ '-' := by rintro rfl; exact absurd hc (by decide)
    simp only [Atoi]
    rw [if_neg (by push_neg; exact ⟨hcp, hcm⟩)]
    rw [show parseDigits (c :: cs) = parseDigitsAux (c :: cs) 0 from by
      simp [parseDigits]]
    rw [parseDigitsAux_digits (c :: cs) 0 hdig]
    dsimp only
    rw [if_neg (show ¬c = '-' from hcm), if_neg]
    push_neg
    constructor
    · have := Int.ofNat_nonneg ((c :: cs).foldl
        (fun a x => a * 10 + (digitVal x).getD 0) 0)
      omega
    · exact_mod_cast hrange

lemma Atoi_decChars (n : Nat) (hn : n < 2 ^ 63) :
    Atoi ⟨decChars n⟩ = .ok (n : Int) := by
  obtain ⟨hne, hdig, hval⟩ := decChars_spec n
  have h := Atoi_all_digits (decChars n) hne hdig (by rw [hval]; exact hn)
  rwa [hval] at h

lemma intToUint32_ofNat (n : Nat) (h : n < 2 ^ 32) : intToUint32 (n : Int) = n := by
  unfold intToUint32
  rw [Int.emod_eq_of_lt (Int.ofNat_nonneg n) (by exact_mod_cast h)]
  exact Int.toNat_ofNat n

/-! ## Round trip (C8): `clean`, `splitComma` and `commaJoin` -/

lemma clean_keep_digit (c : Char) (h : (digitVal c).isSome) : clean c = some c := by
  unfold clean
  rw [if_pos (Or.inl (digit_cond_of_isSome c h))]

lemma digit_ne_comma (c : Char) (h : (digitVal c).isSome) : c ≠ ',' := by
  rintro rfl
  exact absurd h (by decide)

lemma cleanData_keep : ∀ l : List Char, (∀ c ∈ l, clean c = some c) →
    cleanData l = l := by
  intro l
  induction l with
  | nil => intro _; rfl
  | cons c cs ih =>
    intro h
    simp only [cleanData, List.filterMap_cons, h c (List.mem_cons_self c cs)]
    exact congrArg (List.cons c) (ih fun x hx => h x (List.mem_cons_of_mem c hx))

lemma commaJoin_chars : ∀ (ts : List (List Char)) (c : Char), c ∈ commaJoin ts →
    c = ',' ∨ ∃ t ∈ ts, c ∈ t := by
  intro ts
  induction ts with
  | nil => intro c hc; simp [commaJoin] at hc
  | cons t ts ih =>
    intro c hc
    cases ts with
    | nil =>
      right
      exact ⟨t, List.mem_cons_self t [], by simpa [commaJoin] using hc⟩
    | cons t2 ts2 =>
      simp only [commaJoin] at hc
      rcases List.mem_append.mp hc with h | h
      · right; exact ⟨t, List.mem_cons_self t (t2 :: ts2), h⟩
      · rcases List.mem_cons.mp h with h | h
        · left; exact h
        · rcases ih c h with h' | ⟨t', ht', hc'⟩
          · left; exact h'
          · right; exact ⟨t', List.mem_cons_of_mem t ht', hc'⟩

lemma splitComma_ne_nil : ∀ l : List Char, splitComma l ≠ [] := by
  intro l
  induction l with
  | nil => simp [splitComma]
  | cons c cs ih =>
    simp only [splitComma]
    cases h : splitComma cs with
    | nil => exact absurd h ih
    | cons t ts =>
      show ¬(if c = ',' then [] :: t :: ts else (c :: t) :: ts) = []
      split <;> simp

lemma splitComma_no_comma : ∀ l : List Char, ',' ∉ l → splitComma l = [l] := by
  intro l
  induction l with
  | nil => intro _; rfl
  | cons c cs ih =>
    intro h
    have hc : c ≠ ',' := fun heq => h (heq ▸ List.mem_cons_self c cs)
    simp only [splitComma, ih (fun hx => h (List.mem_cons_of_mem c hx)), if_neg hc]

lemma splitComma_append_comma : ∀ (t rest : List Char), ',' ∉ t →
    splitComma (t ++ ',' :: rest) = t :: splitComma rest := by
  intro t
  induction t with
  | nil =>
    intro rest _
    simp only [List.nil_append, splitComma]
    cases h : splitComma rest with
    | nil => exact absurd h (splitComma_ne_nil rest)
    | cons x xs => simp
  | cons c t' ih =>
    intro rest h
    have hc : c ≠ ',' := fun heq => h (heq ▸ List.mem_cons_self c t')
    have hih := ih rest (fun hx => h (List.mem_cons_of_mem c hx))
    simp only [List.cons_append, splitComma, List.append_eq, hih, if_neg hc]

lemma splitComma_commaJoin : ∀ ts : List (List Char), ts ≠ [] →
    (∀ t ∈ ts, ',' ∉ t) → splitComma (commaJoin ts) = ts := by
  intro ts
  induction ts with
  | nil => intro h _; exact absurd rfl h
  | cons t ts ih =>
    intro _ hfree
    cases ts with
    | nil =>
      rw [show commaJoin [t] = t from rfl]
      exact splitComma_no_comma t (hfree t (List.mem_cons_self t []))
    | cons t2 ts2 =>
      simp only [commaJoin]
      rw [splitComma_append_comma t (commaJoin (t2 :: ts2))
        (hfree t (List.mem_cons_self t (t2 :: ts2)))]
      rw [ih (by simp) (fun x hx => hfree x (List.mem_cons_of_mem t hx))]

/-! ## Round trip (C8): the packed little-endian binary form -/

lemma specBinaryBytes_length : ∀ vals : List Nat,
    (specBinaryBytes vals).length = 4 * vals.length := by
  intro vals
  induction vals with
  | nil => rfl
  | cons v vs ih =>
    simp only [specBinaryBytes, List.flatMap_cons, List.length_append] at *
    rw [show (le32 v).length = 4 from rfl, ih, List.length_cons]
    ring

lemma uint32LE_specBinaryBytes :
    ∀ (vals : List Nat) (k : Nat), k < vals.length → (∀ v ∈ vals, v < 2 ^ 32) →
      uint32LE (specBinaryBytes vals) (k * 4) = vals.getD k 0 := by
  intro vals
  induction vals with
  | nil => intro k hk _; simp at hk
  | cons v vs ih =>
    intro k hk hb
    cases k with
    | zero =>
      have hv : v < 2 ^ 32 := hb v (List.mem_cons_self v vs)
      simp only [specBinaryBytes, List.flatMap_cons]
      unfold uint32LE byteAt
      rw [List.getD_append _ _ _ (0 * 4) (by simp [le32]),
        List.getD_append _ _ _ (0 * 4 + 1) (by simp [le32]),
        List.getD_append _ _ _ (0 * 4 + 2) (by simp [le32]),
        List.getD_append _ _ _ (0 * 4 + 3) (by simp [le32])]
      simp only [le32, Nat.zero_mul, List.getD_cons_zero, List.getD_cons_succ]
      omega
    | succ k' =>
      simp only [specBinaryBytes, List.flatMap_cons]
      unfold uint32LE byteAt
      have h4 : (le32 v).length = 4 := rfl
      rw [List.getD_append_right _ _ _ ((k' + 1) * 4) (by omega),
        List.getD_append_right _ _ _ ((k' + 1) * 4 + 1) (by omega),
        List.getD_append_right _ _ _ ((k' + 1) * 4 + 2) (by omega),
        List.getD_append_right _ _ _ ((k' + 1) * 4 + 3) (by omega)]
      rw [h4]
      have e0 : (k' + 1) * 4 - 4 = k' * 4 := by omega
      have e1 : (k' + 1) * 4 + 1 - 4 = k' * 4 + 1 := by omega
      have e2 : (k' + 1) * 4 + 2 - 4 = k' * 4 + 2 := by omega
      have e3 : (k' + 1) * 4 + 3 - 4 = k' * 4 + 3 := by omega
      rw [e0, e1, e2, e3]
      have := ih k' (by simpa using Nat.lt_of_succ_lt_succ (by simpa using hk))
        (fun x hx => hb x (List.mem_cons_of_mem v hx))
      simp only [specBinaryBytes] at this
      unfold uint32LE byteAt at this
      rw [this, List.getD_cons_succ]

/-! ## Round trip (C8): row-major index arithmetic -/

lemma rowmajor_mod (c r cols : Nat) (hc : c < cols) : (r * cols + c) % cols = c := by
  rw [Nat.add_comm, Nat.add_mul_mod_self_right, Nat.mod_eq_of_lt hc]

lemma rowmajor_div (c r cols : Nat) (hc : c < cols) : (r * cols + c) / cols = r := by
  rw [Nat.add_comm, Nat.add_mul_div_right c r (by omega), Nat.div_eq_of_lt hc,
    Nat.zero_add]

lemma rowmajor_lt (c r cols rows : Nat) (hc : c < cols) (hr : r < rows) :
    r * cols + c < cols * rows := by
  calc r * cols + c < r * cols + cols := by omega
  _ = (r + 1) * cols := by ring
  _ ≤ rows * cols := Nat.mul_le_mul_right cols (by omega)
  _ = cols * rows := Nat.mul_comm rows cols

/-! ## Round trip (C8): assembly -/

lemma decodeCsv_round (cols rows : Nat) (hc : 0 < cols) (hr : 0 < rows)
    (vals : List Nat) (hlen : vals.length = cols * rows)
    (hvals : ∀ v ∈ vals, v < 2 ^ 32) :
    (decodeCsv (specCsvText vals) cols rows (allocGrid cols rows)).2 = none ∧
    ∀ k, k < cols * rows →
      (decodeCsv (specCsvText vals) cols rows (allocGrid cols rows)).1.cells
        (k % cols) (k / cols) = vals.getD k 0 := by
  have hvne : vals ≠ [] := by
    intro h
    rw [h] at hlen
    have := Nat.mul_pos hc hr
    simp at hlen
    omega
  have hkeep : ∀ ch ∈ commaJoin (vals.map decChars), clean ch = some ch := by
    intro ch hch
    rcases commaJoin_chars (vals.map decChars) ch hch with rfl | ⟨t, ht, hct⟩
    · decide
    · obtain ⟨n', hn', rfl⟩ := List.mem_map.mp ht
      exact clean_keep_digit ch ((decChars_spec n').2.1 ch hct)
  have hsplit : splitComma (cleanData (specCsvText vals).data) = vals.map decChars := by
    rw [show (specCsvText vals).data = commaJoin (vals.map decChars) from rfl]
    rw [cleanData_keep _ hkeep]
    apply splitComma_commaJoin
    · simpa using hvne
    · intro t ht hcomma
      obtain ⟨n', hn', rfl⟩ := List.mem_map.mp ht
      exact absurd ((decChars_spec n').2.1 ',' hcomma) (by decide)
  have hlen2 : (splitComma (cleanData (specCsvText vals).data)).length = cols * rows := by
    rw [hsplit, List.length_map, hlen]
  have hent : ∀ j, j < cols * rows →
      (Atoi ⟨(splitComma (cleanData (specCsvText vals).data)).getD j []⟩).map
        intToUint32 = .ok (vals.getD j 0) := by
    intro j hj
    have hjlen : j < vals.length := by omega
    have htok : (splitComma (cleanData (specCsvText vals).data)).getD j [] =
        decChars (vals.getD j 0) := by
      rw [hsplit, List.getD_eq_getElem?_getD, List.getElem?_map,
        List.getElem?_eq_getElem hjlen]
      simp [List.getD_eq_getElem?_getD, List.getElem?_eq_getElem hjlen]
    have hv32 : vals.getD j 0 < 2 ^ 32 := by
      apply hvals
      rw [List.getD_eq_getElem vals 0 hjlen]
      exact List.getElem_mem hjlen
    rw [htok, Atoi_decChars (vals.getD j 0) (Nat.lt_trans hv32 (by norm_num))]
    simp only [Except.map]
    rw [intToUint32_ofNat (vals.getD j 0) hv32]
  obtain ⟨g', hg'⟩ := fillGrid_ok_of
    (fun i => (Atoi ⟨(splitComma (cleanData (specCsvText vals).data)).getD i []⟩).map
      intToUint32) cols rows (allocGrid cols rows)
    (fun j hj => ⟨vals.getD j 0, hent j hj⟩)
  have hdec : decodeCsv (specCsvText vals) cols rows (allocGrid cols rows) =
      (g', none) := by
    simp only [decodeCsv]
    rw [if_neg (by rw [hlen2]; exact fun h => h rfl)]
    exact hg'
  refine ⟨by rw [hdec], ?_⟩
  intro k hk
  rw [hdec]
  obtain ⟨v, hv1, hv2⟩ := fillGrid_ok _ cols rows hc (allocGrid cols rows) g' hg' k hk
  have heq := hent k hk
  rw [hv1] at heq
  injection heq with heq
  rw [hv2]
  exact heq

lemma decodeBase64Tail_round (cols rows : Nat) (hc : 0 < cols)
    (vals : List Nat) (hlen : vals.length = cols * rows)
    (hvals : ∀ v ∈ vals, v < 2 ^ 32) (re : Option GoError) :
    (decodeBase64Tail (specBinaryBytes vals, re) cols rows (allocGrid cols rows)).2
      = none ∧
    ∀ k, k < cols * rows →
      (decodeBase64Tail (specBinaryBytes vals, re) cols rows
        (allocGrid cols rows)).1.cells (k % cols) (k / cols) = vals.getD k 0 := by
  have hblen : (specBinaryBytes vals).length / 4 = cols * rows := by
    rw [specBinaryBytes_length, hlen]
    omega
  have h2 : (decodeBase64Tail (specBinaryBytes vals, re) cols rows
      (allocGrid cols rows)).2 = none := by
    simp only [decodeBase64Tail]
    rw [if_neg (by rw [hblen]; exact fun h => h rfl)]
    exact fillGrid_snd _ cols rows (allocGrid cols rows)
  refine ⟨h2, ?_⟩
  intro k hk
  have hpair : decodeBase64Tail (specBinaryBytes vals, re) cols rows
      (allocGrid cols rows) =
      ((decodeBase64Tail (specBinaryBytes vals, re) cols rows
        (allocGrid cols rows)).1, none) := by
    rw [← h2]
  obtain ⟨-, hcells⟩ := decodeBase64Tail_ok (specBinaryBytes vals, re) cols rows hc
    (allocGrid cols rows) _ hpair
  rw [hcells k hk]
  exact uint32LE_specBinaryBytes vals k (by omega) hvals

/-- C8.  Round trip: serializing any `cols × rows` grid of 32-bit
identifiers (given as its row-major list `vals`) as comma-separated
decimal text and decoding recovers the grid cell for cell; likewise for
the packed little-endian 32-bit binary form, with no compression, and
with gzip and zlib compression — the external compressors being modelled
by the hypothesis that the matching decompressor recovers the serialized
bytes with a clean EOF. -/
theorem round_trip (cols rows : Nat) (hc : 0 < cols) (hr : 0 < rows)
    (vals : List Nat) (hlen : vals.length = cols * rows)
    (hvals : ∀ v ∈ vals, v < 2 ^ 32) :
    ((decodeCsv (specCsvText vals) cols rows (allocGrid cols rows)).2 = none ∧
      ∀ c r, c < cols → r < rows →
        (decodeCsv (specCsvText vals) cols rows (allocGrid cols rows)).1.cells c r =
          vals.getD (r * cols + c) 0) ∧
    (∀ (gz zl : ReadResult → Except GoError ReadResult) (b64 : String → ReadResult)
        (raw comp : String),
      (comp = "" ∧ b64 (trimSpace raw) = (specBinaryBytes vals, none) ∨
       comp = "gzip" ∧ gz (b64 (trimSpace raw)) = .ok (specBinaryBytes vals, none) ∨
       comp = "zlib" ∧ zl (b64 (trimSpace raw)) = .ok (specBinaryBytes vals, none)) →
      (decodeBase64 gz zl b64 raw comp cols rows (allocGrid cols rows)).2 = none ∧
      ∀ c r, c < cols → r < rows →
        (decodeBase64 gz zl b64 raw comp cols rows (allocGrid cols rows)).1.cells c r =
          vals.getD (r * cols + c) 0) := by
  obtain ⟨hcsv2, hcsvcells⟩ := decodeCsv_round cols rows hc hr vals hlen hvals
  constructor
  · refine ⟨hcsv2, ?_⟩
    intro c r hcc hrr
    have hk := hcsvcells (r * cols + c) (rowmajor_lt c r cols rows hcc hrr)
    rwa [rowmajor_mod c r cols hcc, rowmajor_div c r cols hcc] at hk
  · intro gz zl b64 raw comp hcase
    have hred : decodeBase64 gz zl b64 raw comp cols rows (allocGrid cols rows) =
        decodeBase64Tail (specBinaryBytes vals, none) cols rows
          (allocGrid cols rows) := by
      rcases hcase with ⟨rfl, hb⟩ | ⟨rfl, hb⟩ | ⟨rfl, hb⟩ <;>
        simp only [decodeBase64, hb]
    obtain ⟨ht2, htcells⟩ := decodeBase64Tail_round cols rows hc vals hlen hvals none
    rw [hred]
    refine ⟨ht2, ?_⟩
    intro c r hcc hrr
    have hk := htcells (r * cols + c) (rowmajor_lt c r cols rows hcc hrr)
    rwa [rowmajor_mod c r cols hcc, rowmajor_div c r cols hcc] at hk

/-- Witness for C8 on the concrete 2×1 grid `[5, 7]`, for the csv form
and for the binary form with the identity reader (no compression). -/
theorem round_trip_witness :
    ((decodeCsv (specCsvText [5, 7]) 2 1 (allocGrid 2 1)).2 = none ∧
      (decodeCsv (specCsvText [5, 7]) 2 1 (allocGrid 2 1)).1.cells 1 0 = 7) ∧
    ((decodeBase64 (fun r => .ok r) (fun r => .ok r)
        (fun _ => (specBinaryBytes [5, 7], none)) "" "" 2 1 (allocGrid 2 1)).2
          = none ∧
      (decodeBase64 (fun r => .ok r) (fun r => .ok r)
        (fun _ => (specBinaryBytes [5, 7], none)) "" "" 2 1 (allocGrid 2 1)).1.cells
          0 0 = 5) := by
  have h := round_trip 2 1 (by decide) (by decide) [5, 7] (by decide) (by decide)
  refine ⟨⟨h.1.1, h.1.2 1 0 (by decide) (by decide)⟩, ?_⟩
  have hb := h.2 (fun r => .ok r) (fun r => .ok r)
    (fun _ => (specBinaryBytes [5, 7], none)) "" ""
    (Or.inl ⟨rfl, rfl⟩)
  exact ⟨hb.1, hb.2 0 0 (by decide) (by decide)⟩

end Tmx
